import Mathlib

/-!
Verification of the catalog reconciliation and concurrent version-resolution
engine of the SteamVersionChecker repository.

The repository is TypeScript; the definitions below are a shallow embedding of
the relevant functions.  JavaScript optional values (`undefined` / `null`)
become `Option`, the persisted catalog object (`GamesDataMap`, a map keyed by
`AppID`) becomes a function `Nat → Option GameEntry`, and JavaScript-specific
comparison and truthiness semantics are embedded explicitly where the source
relies on them (`!==` between a `number | null` and a `number | undefined`
operand, `if (x)` on numbers and strings).
-/

namespace SteamBackup

/-- Embedding of the `GameData` record (`src/src/types.ts`).  Optional fields
are `Option`.  The independently overwritten rating/review scalars
(`RatingPercent`, `ReviewsTotal`, …) are carried by no claim-relevant
operation modelled here and are omitted from the record. -/
structure GameEntry where
  Name : String
  AppID : Nat
  InstalledBuild : Option Nat := none
  LatestBuild : Option Nat := none
  LatestDate : Option String := none
  SkidrowLink : Option String := none
deriving Repr, DecidableEq

/-- The persisted catalog: `GamesDataMap` from `src/src/types.ts`, a JS object
keyed by `AppID`. -/
def Catalog : Type := Nat → Option GameEntry

/-- Point update of the catalog object (`gamesData[id] = entry`). -/
def updateCat (c : Catalog) (k : Nat) (v : GameEntry) : Catalog :=
  fun i => if i = k then some v else c i

/-- The empty catalog (`{}`). -/
def emptyCatalog : Catalog := fun _ => none

/-- JS truthiness of a `number | null` / `number | undefined` value:
`null`, `undefined` and `0` are falsy. -/
def jsTruthyNum : Option Nat → Bool
  | none => false
  | some n => n != 0

/-- JS truthiness of a `string | undefined` value: `undefined` and the empty
string are falsy. -/
def jsTruthyStr : Option String → Bool
  | none => false
  | some s => s != ""

/-- JS strict inequality `a !== b` where `a : number | null` and
`b : number | undefined` (the shapes of `latestBuild` and `prevBuild` in
`src/src/index.ts`).  `null !== undefined` is `true`, so two absent values
compare as different. -/
def jsStrictNeqNullUndef : Option Nat → Option Nat → Bool
  | some a, some b => a != b
  | _, _ => true

/-! ## CatalogReconciler: inventory merge (`src/src/index.ts`) -/

/-- One step of the plain merge loop (`src/src/index.ts` lines 105-118):
if the id exists, overwrite only `Name` and `InstalledBuild`; otherwise insert
the inventory record. -/
def mergeStep (c : Catalog) (b : GameEntry) : Catalog :=
  match c b.AppID with
  | some ex => updateCat c b.AppID { ex with Name := b.Name, InstalledBuild := b.InstalledBuild }
  | none => updateCat c b.AppID b

/-- The inventory merge pass of `main` (`src/src/index.ts` lines 105-118):
fold `mergeStep` over the local backups. -/
def mergeInventory (c : Catalog) (inv : List GameEntry) : Catalog :=
  inv.foldl mergeStep c

/-- One step of the changed-games merge variant (`src/src/index.ts` lines
374-401): new ids are inserted; existing ids with a changed `InstalledBuild`
get `Name` and `InstalledBuild` overwritten; unchanged ids get only `Name`
refreshed.  The collection of the changed/new list for `gamesToCheck` and the
console logging are not modelled; only the catalog effect is. -/
def mergeStepChanged (c : Catalog) (b : GameEntry) : Catalog :=
  match c b.AppID with
  | none => updateCat c b.AppID b
  | some ex =>
    if ex.InstalledBuild != b.InstalledBuild then
      updateCat c b.AppID { ex with Name := b.Name, InstalledBuild := b.InstalledBuild }
    else
      updateCat c b.AppID { ex with Name := b.Name }

/-- The changed-games inventory merge pass (`src/src/index.ts` lines 374-401),
catalog effect only. -/
def mergeInventoryChanged (c : Catalog) (inv : List GameEntry) : Catalog :=
  inv.foldl mergeStepChanged c

/-! ## CatalogReconciler: resolution application (`src/src/index.ts`) -/

/-- The `latestDate` determination of the per-game resolution block
(`src/src/index.ts` lines 429-444, identically lines 139-150): the value the
entry's `LatestDate` field holds afterwards.  `isoOfMs` stands for
`t => new Date(t).toISOString()`; the source applies it to
`latestTimeUpdated * 1000`.  The first guard is JS truthiness of
`latestTimeUpdated` (so `0` is treated like absent), the second compares
`latestBuild : number | null` against `prevBuild : number | undefined` with
`!==` and tests `!prevDate`. -/
def applyResolutionDate (isoOfMs : Nat → String) (now : String)
    (timeUpdated latestBuild prevBuild : Option Nat) (prevDate : Option String) :
    Option String :=
  if jsTruthyNum timeUpdated then
    some (isoOfMs (timeUpdated.getD 0 * 1000))
  else if jsStrictNeqNullUndef latestBuild prevBuild || !jsTruthyStr prevDate then
    some now
  else
    prevDate

/-- The per-entry catalog mutation of the resolution block
(`src/src/index.ts` lines 429-444): `LatestDate` is reconciled by
`applyResolutionDate` and `LatestBuild` is always overwritten with the
resolved value (`latestBuild === null ? undefined : latestBuild`). -/
def applyResolution (isoOfMs : Nat → String) (now : String) (e : GameEntry)
    (buildID timeUpdated : Option Nat) : GameEntry :=
  { e with
    LatestDate := applyResolutionDate isoOfMs now timeUpdated buildID e.LatestBuild e.LatestDate
    LatestBuild := buildID }

/-! ## StatusClassifier (`src/src/index.ts` lines 457-464) -/

/-- Status string for a failed resolution. -/
def statusUnresolved : String := "❌ Could not fetch latest"

/-- Status string for a newer remote build. -/
def statusUpdateAvailable : String := "⚠️ Update available"

/-- Status string for an up-to-date backup. -/
def statusUpToDate : String := "✅ Up to date"

/-- The status determination (`src/src/index.ts` lines 457-464):
`latestBuild == null` (loose equality, `latestBuild : number | null`) yields
the unresolved status; otherwise `latestBuild > (game.InstalledBuild ?? 0)`
yields update-available, else up-to-date. -/
def classify (installedBuild latestBuild : Option Nat) : String :=
  match latestBuild with
  | none => statusUnresolved
  | some lv => if installedBuild.getD 0 < lv then statusUpdateAvailable else statusUpToDate

/-! ## ConcurrencyResolver (`src/src/index.ts` lines 268-290) -/

/-- Worker count spawned by `mapWithConcurrency` (`src/src/index.ts` lines
273 and 285): `Math.min(Math.max(1, Math.floor(limit)), items.length)`.  The
`limit` argument is a finite JS number, embedded as a rational; `Math.floor`
is the rational floor. -/
def numWorkers (limit : ℚ) (n : Nat) : Nat :=
  min (max 1 ⌊limit⌋).toNat n

/-- The result array of `mapWithConcurrency` (`src/src/index.ts` lines
274-289) as a function of the completion order.  Each claimed index `i` is
eventually written once with `mapper(items[i])`
(`results[currentIndex] = await mapper(items[currentIndex])`); because the
shared `nextIndex` counter hands out each index exactly once, an execution of
the pool is characterised by the order in which the per-index writes land,
a permutation of `0 … items.length - 1`.  `none` marks a hole not yet
written. -/
def mapWithConcurrencyWrites (items : List α) (f : α → β) (order : List Nat) :
    List (Option β) :=
  order.foldl (fun res i => res.set i (items[i]?.map f)) (List.replicate items.length none)

/-! ## BuildInfoExtractor (`src/src/utils/steamUtils.ts`, `src/unnamed/part_002`) -/

/-- Characters matched by the regex class `\s` (ASCII range). -/
def isWsChar (c : Char) : Bool :=
  c == ' ' || c == '\t' || c == '\n' || c == '\r' || c == '\x0b' || c == '\x0c'

/-- Characters matched by the regex class `\d`. -/
def isDigitChar (c : Char) : Bool :=
  '0' ≤ c && c ≤ '9'

/-- `parseInt(digits, 10)` on a captured digit string. -/
def digitsToNat (ds : List Char) : Nat :=
  ds.foldl (fun n c => n * 10 + (c.toNat - '0'.toNat)) 0

/-- Match a literal character sequence at the head of the input, returning the
remainder on success. -/
def matchPrefix : List Char → List Char → Option (List Char)
  | [], rest => some rest
  | _ :: _, [] => none
  | p :: ps, c :: cs => if p == c then matchPrefix ps cs else none

/-- Attempt the regex `/"<key>"\s+"(\d+)"/` anchored at the head of the input:
the literal quoted key, one or more whitespace characters, then a quoted
nonempty digit string; yields the parsed capture. -/
def matchKeyValueAt (key : List Char) (cs : List Char) : Option Nat :=
  match matchPrefix key cs with
  | none => none
  | some r1 =>
    let ws := r1.takeWhile isWsChar
    let r2 := r1.dropWhile isWsChar
    if ws.isEmpty then none
    else
      match r2 with
      | '"' :: r3 =>
        let ds := r3.takeWhile isDigitChar
        let r4 := r3.dropWhile isDigitChar
        if ds.isEmpty then none
        else
          match r4 with
          | '"' :: _ => some (digitsToNat ds)
          | _ => none
      | _ => none

/-- First match of `/"<key>"\s+"(\d+)"/` in the text, scanning left to right
(`content.match(...)` with a non-global regex: first match wins). -/
def findKeyValue (key : List Char) : List Char → Option Nat
  | [] => none
  | c :: cs =>
    match matchKeyValueAt key (c :: cs) with
    | some v => some v
    | none => findKeyValue key cs

/-- The quoted key scanned for the primary build identifier
(`/"buildid"\s+"(\d+)"/`). -/
def buildidKey : List Char := "\"buildid\"".data

/-- The quoted key scanned for the oracle timestamp
(`/"timeupdated"\s+"(\d+)"/`). -/
def timeupdatedKey : List Char := "\"timeupdated\"".data

/-- Outcome of `getLatestBuild` restricted to the fields the claims are about,
together with the number of SteamCMD invocations performed. -/
structure BuildResult where
  buildID : Option Nat
  timeUpdated : Option Nat
  invocations : Nat
deriving Repr, DecidableEq

/-- The `getLatestBuild` variant with the retry policy
(`src/unnamed/part_002` lines 224-296).  `first` and `retryText` are the raw
texts captured by the first and (when performed) second SteamCMD invocation.
If `buildid` is found in the first text, one invocation happens; otherwise
the oracle is re-invoked and `content` becomes the retry text, from which both
`buildid` and `timeupdated` are then parsed. -/
def getLatestBuildRetry (first retryText : String) : BuildResult :=
  match findKeyValue buildidKey first.data with
  | some v =>
    { buildID := some v
      timeUpdated := findKeyValue timeupdatedKey first.data
      invocations := 1 }
  | none =>
    { buildID := findKeyValue buildidKey retryText.data
      timeUpdated := findKeyValue timeupdatedKey retryText.data
      invocations := 2 }

/-- The `getLatestBuild` variant without any retry
(`src/src/utils/steamUtils.ts` lines 110-204): SteamCMD is invoked exactly
once and both fields are parsed from that single capture, `null` on a parse
miss. -/
def getLatestBuildNoRetry (content : String) : BuildResult :=
  { buildID := findKeyValue buildidKey content.data
    timeUpdated := findKeyValue timeupdatedKey content.data
    invocations := 1 }

/-! ## External-reference lookup (`src/src/utils/rssUtils.ts`, applied in
`src/src/index.ts` lines 157-173 / `src/unnamed/part_000` lines 170-186) -/

/-- The URL prefix required of a SkidrowReloaded link
(`guidUrl.startsWith('https://www.skidrowreloaded.com/')`). -/
def skidrowUrlStem : String := "https://www.skidrowreloaded.com/"

/-- Name normalisation of `getSkidrowLinks`
(`src/src/utils/rssUtils.ts`): lowercase, then remove every `.` and every
whitespace character. -/
def normalizeTitle (s : String) : String :=
  String.mk ((s.data.map Char.toLower).filter (fun c => !(c == '.') && !isWsChar c))

/-- One item of the parsed RSS feed, restricted to the fields
`getSkidrowLinks` reads.  `categories = none` embeds a missing `categories`
field (the `!item.categories` skip); `pubDate`/`guid` are `none` when the
field is missing.  `pubDate` is the epoch-millisecond value of
`new Date(item.pubDate)`. -/
structure FeedItem where
  categories : Option (List String)
  pubDate : Option Int
  guid : Option String

/-- The filtering loop of `getSkidrowLinks` (`src/src/utils/rssUtils.ts`):
items lacking `categories`, `pubDate` or `guid` are skipped; for every
category whose normalisation equals the normalised game name, when the
publication date is at least `sinceDate` and the guid starts with the
SkidrowReloaded stem, the guid is pushed. -/
def getSkidrowLinks (gameName : String) (sinceDate : Int) (items : List FeedItem) :
    List String :=
  items.foldl
    (fun links item =>
      match item.categories, item.pubDate, item.guid with
      | some cats, some pd, some g =>
        links ++ (cats.filter
          (fun cat =>
            normalizeTitle cat == normalizeTitle gameName
              && decide (sinceDate ≤ pd)
              && skidrowUrlStem.data.isPrefixOf g.data)).map (fun _ => g)
      | _, _, _ => links)
    []

/-- Result of awaiting `getSkidrowLinks`: the links list, or a rejected
promise. -/
inductive LinksOutcome where
  | ok (links : List String)
  | err
deriving Repr, DecidableEq

/-- The SkidrowReloaded block of the per-game loop (`src/src/index.ts` lines
157-173): a nonempty links list overwrites the stored `SkidrowLink` with its
head; an empty list or a rejection leaves the stored field untouched.  The
second component is the `skidrowLink` string carried into the report row
(the stored link when present, else `''`). -/
def applySkidrow (e : GameEntry) (r : LinksOutcome) : GameEntry × String :=
  match r with
  | .ok (l :: _) => ({ e with SkidrowLink := some l }, l)
  | .ok [] => (e, e.SkidrowLink.getD "")
  | .err => (e, e.SkidrowLink.getD "")

/-! ## ReportAssembler (`src/unnamed/part_004` lines 38-47) -/

/-- ASCII lowercasing of a string, the primary strength of the collation used
by `a.Name.localeCompare(b.Name)`. -/
def lowerAscii (s : String) : String := String.mk (s.data.map Char.toLower)

/-- Case pattern of a string, the tertiary strength of the collation:
position-wise, an uppercase letter carries the greater weight (the root
collation orders lowercase before uppercase).  Encoded as a string of `'B'`
(upper) and `'a'` (other) so that string order compares the patterns. -/
def casePattern (s : String) : String :=
  String.mk (s.data.map (fun c => if c.isUpper then 'B' else 'a'))

/-- Collation key of a report row's display name: an ASCII model of the ICU
root collation behind `String.prototype.localeCompare` - compare the
lowercased names first and break ties by the case pattern. -/
def nameKey (e : GameEntry) : String ×ₗ String :=
  toLex (lowerAscii e.Name, casePattern e.Name)

/-- The comparator `(a, b) => a.Name.localeCompare(b.Name)` viewed as a
non-strict order on rows: the comparator does not return a positive value. -/
def nameLe (a b : GameEntry) : Prop := nameKey a ≤ nameKey b

instance (a b : GameEntry) : Decidable (nameLe a b) := by
  unfold nameLe; infer_instance

/-- Insert a row into an already sorted prefix, placing it after every row
that does not compare greater: the stable insertion mirroring the guarantee
of `Array.prototype.sort` (stable since ES2019) for this comparator. -/
def sinsert (a : GameEntry) : List GameEntry → List GameEntry
  | [] => [a]
  | b :: l => if nameLe b a then b :: sinsert a l else a :: b :: l

/-- The sorting step of `generateHtmlReport`
(`[...results].sort((a, b) => a.Name.localeCompare(b.Name))`,
`src/unnamed/part_004` lines 44-46): a stable sort of a copy of the rows by
display name under the embedded collation. -/
def sortByName (l : List GameEntry) : List GameEntry :=
  l.foldl (fun acc x => sinsert x acc) []

/-! ## Persisted catalog read -/

/-- State of the persisted catalog document as far as `readGamesData` can
distinguish it: absent, present but rejected by `JSON.parse`, or present and
parsed to a catalog object. -/
inductive CatalogDoc where
  | absent
  | malformed
  | parsed (m : Catalog)

/-- `readGamesData` of `src/utils/fileUtils.ts` (`src/unnamed/part_004` lines
338-348): if the file exists, its content is fed to `JSON.parse` and the
parsed object is returned as-is; a missing file yields `{}`.  There is no
`try`/`catch`, so on malformed content the `JSON.parse` exception propagates
out of `readGamesData` and out of `main` - it is read before the per-game
loop (`src/src/index.ts` line 360) and reaches only the top-level fatal
handler (`main(params).catch(... process.exit(1))`, `src/src/index.ts` lines
533-536).  The thrown execution is embedded as `Except.error`. -/
def readGamesData : CatalogDoc → Except String Catalog
  | .absent => .ok emptyCatalog
  | .malformed => .error "SyntaxError: Unexpected token in JSON"
  | .parsed m => .ok m

/-! ## Claim C5: status classification -/

/-- C5: the status classifier returns UNRESOLVED exactly when the latest
version is null; otherwise it returns UPDATE_AVAILABLE exactly when the
latest version is greater than the installed version with an absent installed
version treated as 0; and UP_TO_DATE in all remaining cases, so an absent
installed version never by itself yields UNRESOLVED. -/
theorem classify_status_characterisation (installed latest : Option Nat) :
    (classify installed latest = statusUnresolved ↔ latest = none) ∧
    (classify installed latest = statusUpdateAvailable ↔
      ∃ lv, latest = some lv ∧ installed.getD 0 < lv) ∧
    (classify installed latest = statusUpToDate ↔
      ∃ lv, latest = some lv ∧ lv ≤ installed.getD 0) := by
  have hd1 : statusUnresolved ≠ statusUpdateAvailable := by decide
  have hd2 : statusUnresolved ≠ statusUpToDate := by decide
  have hd3 : statusUpdateAvailable ≠ statusUpToDate := by decide
  cases latest with
  | none =>
    refine ⟨by simp [classify], ?_, ?_⟩ <;> simp [classify, hd1, hd2]
  | some lv =>
    by_cases h : installed.getD 0 < lv
    · refine ⟨?_, ?_, ?_⟩ <;>
        simp [classify, h, hd1.symm, hd3, Nat.not_le.mpr h]
    · refine ⟨?_, ?_, ?_⟩ <;>
        simp [classify, h, hd2.symm, hd3.symm, Nat.not_lt.mp h]

/-! ## Claims C1 and C6: timestamp reconciliation -/

/-- C1 fails as stated: here the oracle supplies its own timestamp, namely
`0` (`"timeupdated" "0"` parses to `TimeUpdated = 0`), so the claim requires
`latestObservedAt` to become the oracle timestamp (`isoOfMs (0 * 1000)`,
instantiated to `"ORACLE"`); but `if (latestTimeUpdated)` treats the supplied
`0` as falsy and, the version being unchanged and a previous date being
present, the code keeps the previous value `"PREV"`. -/
theorem applyResolutionDate_zero_timestamp_counterexample :
    applyResolutionDate (fun _ => "ORACLE") "NOW" (some 0) (some 5) (some 5) (some "PREV")
      = some "PREV" ∧ ("PREV" : String) ≠ "ORACLE" :=
  ⟨rfl, by decide⟩

/-- C1 (amended): a nonzero oracle timestamp is stored unconditionally; when
the oracle timestamp is absent or zero, the reconciliation instant `now` is
stored as soon as the resolved version and the previously stored version are
not both present and equal (in particular whenever either is absent, since
`null !== undefined` in JS), or the previous timestamp is absent or empty;
only otherwise is the previous timestamp kept. -/
theorem applyResolutionDate_rule (isoOfMs : Nat → String) (now : String)
    (tu lb pb : Option Nat) (pd : Option String) :
    (∀ t, tu = some t → t ≠ 0 →
      applyResolutionDate isoOfMs now tu lb pb pd = some (isoOfMs (t * 1000))) ∧
    ((tu = none ∨ tu = some 0) →
      ((¬ (∃ v, lb = some v ∧ pb = some v) ∨ pd = none ∨ pd = some "") →
        applyResolutionDate isoOfMs now tu lb pb pd = some now) ∧
      (∀ v d, lb = some v → pb = some v → pd = some d → d ≠ "" →
        applyResolutionDate isoOfMs now tu lb pb pd = pd)) := by
  constructor
  · rintro t rfl ht
    simp [applyResolutionDate, jsTruthyNum, ht]
  · intro htu
    have htub : jsTruthyNum tu = false := by
      rcases htu with rfl | rfl <;> simp [jsTruthyNum]
    constructor
    · intro hcond
      have hb : jsStrictNeqNullUndef lb pb = true ∨ jsTruthyStr pd = false := by
        rcases hcond with h | rfl | rfl
        · left
          cases lb with
          | none => rfl
          | some a =>
            cases pb with
            | none => rfl
            | some b =>
              simp only [jsStrictNeqNullUndef, bne_iff_ne, ne_eq]
              intro hab
              exact h ⟨a, rfl, by rw [hab]⟩
        · right; rfl
        · right; simp [jsTruthyStr]
      rcases hb with hb | hb <;> simp [applyResolutionDate, htub, hb]
    · rintro v d rfl rfl rfl hd
      simp [applyResolutionDate, htub, jsStrictNeqNullUndef, jsTruthyStr, hd]

/-- Witness for `applyResolutionDate_rule`: the three branches evaluated at
concrete inputs. -/
theorem applyResolutionDate_rule_witness :
    applyResolutionDate (fun _ => "D") "N" (some 3) (some 1) (some 2) (some "p")
      = some ((fun _ => "D") (3 * 1000)) ∧
    applyResolutionDate (fun _ => "D") "N" none none (some 1) (some "p") = some "N" ∧
    applyResolutionDate (fun _ => "D") "N" none (some 1) (some 1) (some "p") = some "p" :=
  ⟨(applyResolutionDate_rule (fun _ => "D") "N" (some 3) (some 1) (some 2) (some "p")).1
      3 rfl (by decide),
   ((applyResolutionDate_rule (fun _ => "D") "N" none none (some 1) (some "p")).2
      (Or.inl rfl)).1 (Or.inl (by rintro ⟨v, hv, _⟩; cases hv)),
   ((applyResolutionDate_rule (fun _ => "D") "N" none (some 1) (some 1) (some "p")).2
      (Or.inl rfl)).2 1 "p" rfl rfl rfl (by decide)⟩

/-- C6 fails as stated: an entry whose stored latest version is absent, with
a stored timestamp `"D0"`, resolved again to an absent version with no oracle
timestamp ("the resolved version equals the stored latest version"), does not
keep its timestamp: `null !== undefined`, so both applications restamp the
entry with the reconciliation instant `"N"`. -/
theorem applyResolution_idempotence_counterexample :
    (applyResolution (fun _ => "ISO") "N"
        (applyResolution (fun _ => "ISO") "N"
          { Name := "g", AppID := 1, LatestDate := some "D0" } none none)
        none none).LatestDate = some "N" ∧ ("N" : String) ≠ "D0" :=
  ⟨rfl, by decide⟩

/-- C6 (amended): applyResolution is idempotent on the observed timestamp
when the resolved version is present and equals the stored latest version, no
oracle timestamp is supplied, and the stored timestamp is present and
nonempty: both the first and the second application keep the stored
timestamp, whatever the two reconciliation instants are. -/
theorem applyResolution_idempotent (isoOfMs : Nat → String) (now now2 : String)
    (e : GameEntry) (v : Nat) (h1 : e.LatestBuild = some v)
    (d : String) (h2 : e.LatestDate = some d) (h3 : d ≠ "") :
    (applyResolution isoOfMs now e (some v) none).LatestDate = some d ∧
    (applyResolution isoOfMs now2
        (applyResolution isoOfMs now e (some v) none) (some v) none).LatestDate
      = some d := by
  have hstep : (applyResolution isoOfMs now e (some v) none).LatestDate = some d := by
    simp [applyResolution, applyResolutionDate, jsTruthyNum, jsStrictNeqNullUndef,
      jsTruthyStr, h1, h2, h3]
  refine ⟨hstep, ?_⟩
  have hb : (applyResolution isoOfMs now e (some v) none).LatestBuild = some v := rfl
  have hrw : (applyResolution isoOfMs now2
        (applyResolution isoOfMs now e (some v) none) (some v) none).LatestDate
      = applyResolutionDate isoOfMs now2 none (some v)
          (applyResolution isoOfMs now e (some v) none).LatestBuild
          (applyResolution isoOfMs now e (some v) none).LatestDate := rfl
  rw [hrw, hb, hstep]
  simp [applyResolutionDate, jsTruthyNum, jsStrictNeqNullUndef, jsTruthyStr, h3]

/-- Witness for `applyResolution_idempotent` at a concrete entry. -/
theorem applyResolution_idempotent_witness :
    (applyResolution (fun _ => "I") "N2"
        (applyResolution (fun _ => "I") "N1"
          { Name := "g", AppID := 1, LatestBuild := some 7, LatestDate := some "D" }
          (some 7) none)
        (some 7) none).LatestDate = some "D" :=
  (applyResolution_idempotent (fun _ => "I") "N1" "N2"
    { Name := "g", AppID := 1, LatestBuild := some 7, LatestDate := some "D" }
    7 rfl "D" rfl (by decide)).2

/-! ## Claim C8: persisted catalog read -/

/-- C8: reading the persisted catalog returns the empty catalog (not an
error) when the file is absent; a malformed file raises an error (the
uncaught `JSON.parse` exception, fatal to the run before any resolution
work), never a silently returned empty or partial catalog; and every
well-formed document yields exactly its own catalog. -/
theorem readGamesData_error_policy :
    readGamesData CatalogDoc.absent = Except.ok emptyCatalog ∧
    (∃ msg, readGamesData CatalogDoc.malformed = Except.error msg) ∧
    (∀ m, readGamesData (CatalogDoc.parsed m) = Except.ok m) :=
  ⟨rfl, ⟨_, rfl⟩, fun _ => rfl⟩

/-! ## Claim C2: retry policy of the build extractor -/

/-- C2 fails as stated for the `getLatestBuild` of
`src/src/utils/steamUtils.ts`: on oracle text containing no `buildid`
pattern, that variant performs a single SteamCMD invocation (not a second,
full re-invocation) and immediately resolves the item to a null version. -/
theorem getLatestBuildNoRetry_counterexample :
    (getLatestBuildNoRetry "steam output without identifiers").invocations = 1 ∧
    (getLatestBuildNoRetry "steam output without identifiers").buildID = none ∧
    findKeyValue buildidKey "steam output without identifiers".data = none :=
  ⟨rfl, by decide, by decide⟩

/-- C2 (amended, holds for the `src/unnamed/part_002` variant of
`getLatestBuild`): if the primary identifier is not found in the first
invocation's text, the oracle is invoked exactly one additional time and the
item resolves to a null version exactly when the retry text also lacks the
identifier; if the identifier is found at once, a single invocation happens
and its value is resolved. -/
theorem getLatestBuildRetry_policy (first retryText : String) :
    (findKeyValue buildidKey first.data = none →
      (getLatestBuildRetry first retryText).invocations = 2 ∧
      ((getLatestBuildRetry first retryText).buildID = none ↔
        findKeyValue buildidKey retryText.data = none)) ∧
    (∀ v, findKeyValue buildidKey first.data = some v →
      (getLatestBuildRetry first retryText).invocations = 1 ∧
      (getLatestBuildRetry first retryText).buildID = some v) := by
  constructor
  · intro h
    constructor
    · simp [getLatestBuildRetry, h]
    · cases hr : findKeyValue buildidKey retryText.data <;>
        simp [getLatestBuildRetry, h, hr]
  · intro v h
    constructor <;> simp [getLatestBuildRetry, h]

/-- Witness for `getLatestBuildRetry_policy`: a first text with no build
identifier forces the second invocation, whose text resolves build 42. -/
theorem getLatestBuildRetry_policy_witness :
    (getLatestBuildRetry "nothing here" "x \"buildid\" \"42\" y").invocations = 2 ∧
    ((getLatestBuildRetry "nothing here" "x \"buildid\" \"42\" y").buildID = none ↔
      findKeyValue buildidKey ("x \"buildid\" \"42\" y" : String).data = none) :=
  (getLatestBuildRetry_policy "nothing here" "x \"buildid\" \"42\" y").1 (by decide)

/-! ## Claim C3: inventory merge frame properties -/

/-- A merge step leaves every other id of the catalog untouched. -/
lemma mergeStep_apply_ne (c : Catalog) (b : GameEntry) (id : Nat) (h : id ≠ b.AppID) :
    mergeStep c b id = c id := by
  unfold mergeStep
  cases c b.AppID <;> simp [updateCat, h]

/-- A merge step at an id present in the catalog only rewrites `Name` and
`InstalledBuild` of the stored entry. -/
lemma mergeStep_apply_eq_some (c : Catalog) (b : GameEntry) (e : GameEntry)
    (h : c b.AppID = some e) :
    mergeStep c b b.AppID
      = some { e with Name := b.Name, InstalledBuild := b.InstalledBuild } := by
  unfold mergeStep
  rw [h]
  simp [updateCat]

/-- A merge step at an id absent from the catalog inserts the record. -/
lemma mergeStep_apply_eq_none (c : Catalog) (b : GameEntry) (h : c b.AppID = none) :
    mergeStep c b b.AppID = some b := by
  unfold mergeStep
  rw [h]
  simp [updateCat]

/-- Merging never deletes and only rewrites `Name` and `InstalledBuild` of a
pre-existing entry. -/
lemma mergeInventory_frame :
    ∀ (inv : List GameEntry) (c : Catalog) (id : Nat) (e : GameEntry), c id = some e →
      ∃ nm ib, mergeInventory c inv id = some { e with Name := nm, InstalledBuild := ib }
  | [], c, id, e, h => ⟨e.Name, e.InstalledBuild, h⟩
  | b :: inv, c, id, e, h => by
    by_cases hid : id = b.AppID
    · subst hid
      obtain ⟨nm, ib, hr⟩ := mergeInventory_frame inv (mergeStep c b) b.AppID
        { e with Name := b.Name, InstalledBuild := b.InstalledBuild }
        (mergeStep_apply_eq_some c b e h)
      exact ⟨nm, ib, hr⟩
    · have hstep : mergeStep c b id = some e := (mergeStep_apply_ne c b id hid).trans h
      exact mergeInventory_frame inv (mergeStep c b) id e hstep

/-- Ids observed by no inventory record are untouched by the merge. -/
lemma mergeInventory_untouched :
    ∀ (inv : List GameEntry) (c : Catalog) (id : Nat), (∀ r ∈ inv, r.AppID ≠ id) →
      mergeInventory c inv id = c id
  | [], _, _, _ => rfl
  | b :: inv, c, id, h => by
    show mergeInventory (mergeStep c b) inv id = c id
    rw [mergeInventory_untouched inv (mergeStep c b) id (fun r hr => h r (List.mem_cons_of_mem _ hr))]
    exact mergeStep_apply_ne c b id fun hid => h b (List.mem_cons_self b inv) (hid ▸ rfl)

/-- Once an id is present it stays present through the merge. -/
lemma mergeInventory_isSome_mono (inv : List GameEntry) (c : Catalog) (id : Nat)
    (h : (c id).isSome) : (mergeInventory c inv id).isSome := by
  obtain ⟨e, he⟩ := Option.isSome_iff_exists.mp h
  obtain ⟨nm, ib, hr⟩ := mergeInventory_frame inv c id e he
  simp [hr]

/-- An id carried by some inventory record is present after the merge. -/
lemma mergeInventory_isSome_of_mem :
    ∀ (inv : List GameEntry) (c : Catalog) (r : GameEntry), r ∈ inv →
      (mergeInventory c inv r.AppID).isSome
  | b :: inv, c, r, hr => by
    show (mergeInventory (mergeStep c b) inv r.AppID).isSome
    rcases List.mem_cons.mp hr with hrb | hrtl
    · subst hrb
      apply mergeInventory_isSome_mono
      cases hc : c r.AppID with
      | some e => simp [mergeStep_apply_eq_some c r e hc]
      | none => simp [mergeStep_apply_eq_none c r hc]
    · exact mergeInventory_isSome_of_mem inv (mergeStep c b) r hrtl

/-- An id absent beforehand and carried by a record of an inventory with
distinct ids ends up mapped to exactly that record. -/
lemma mergeInventory_insert :
    ∀ (inv : List GameEntry) (c : Catalog) (r : GameEntry),
      (inv.map (fun x => x.AppID)).Nodup → r ∈ inv → c r.AppID = none →
      mergeInventory c inv r.AppID = some r
  | b :: inv, c, r, hnd, hr, hc => by
    show mergeInventory (mergeStep c b) inv r.AppID = some r
    have hnd' := (List.nodup_cons.mp hnd)
    rcases List.mem_cons.mp hr with hrb | hrtl
    · subst hrb
      have huntouched : ∀ x ∈ inv, x.AppID ≠ r.AppID := by
        intro x hx hxr
        have hmem : x.AppID ∈ inv.map (fun y => y.AppID) := List.mem_map_of_mem _ hx
        rw [hxr] at hmem
        exact hnd'.1 hmem
      rw [mergeInventory_untouched inv (mergeStep c r) r.AppID huntouched]
      exact mergeStep_apply_eq_none c r hc
    · have hne : r.AppID ≠ b.AppID := by
        intro hh
        have hmem : r.AppID ∈ inv.map (fun y => y.AppID) := List.mem_map_of_mem _ hrtl
        rw [hh] at hmem
        exact hnd'.1 hmem
      have hc' : mergeStep c b r.AppID = none := (mergeStep_apply_ne c b r.AppID hne).trans hc
      exact mergeInventory_insert inv (mergeStep c b) r hnd'.2 hrtl hc'

/-- The changed-games merge step has the same catalog effect as the plain
merge step: when `InstalledBuild` is unchanged the overwritten value is the
stored one. -/
lemma mergeStepChanged_eq (c : Catalog) (b : GameEntry) :
    mergeStepChanged c b = mergeStep c b := by
  unfold mergeStepChanged mergeStep
  cases hc : c b.AppID with
  | none => rfl
  | some ex =>
    by_cases h : ex.InstalledBuild = b.InstalledBuild
    · simp only [bne_iff_ne, ne_eq, h, not_true_eq_false, if_false]
    · simp [bne_iff_ne, h]

/-- The two inventory-merge variants build the same catalog. -/
lemma mergeInventoryChanged_eq :
    ∀ (inv : List GameEntry) (c : Catalog),
      mergeInventoryChanged c inv = mergeInventory c inv
  | [], _ => rfl
  | b :: inv, c => by
    show mergeInventoryChanged (mergeStepChanged c b) inv = mergeInventory (mergeStep c b) inv
    rw [mergeStepChanged_eq, mergeInventoryChanged_eq inv]

/-- C3: the inventory merge overwrites only `Name` and `InstalledBuild` of
entries whose id already exists (leaving `LatestBuild`, `LatestDate` and
`SkidrowLink` unchanged), inserts records with absent ids as new entries,
and never removes an existing entry; absent ids remain absent exactly when no
inventory record carries them.  The changed-games variant of the merge has
the identical catalog effect. -/
theorem mergeInventory_spec (c : Catalog) (inv : List GameEntry) :
    (∀ id e, c id = some e → ∃ nm ib,
      mergeInventory c inv id = some { e with Name := nm, InstalledBuild := ib }) ∧
    (∀ id, c id = none →
      (mergeInventory c inv id = none ↔ ∀ r ∈ inv, r.AppID ≠ id)) ∧
    ((inv.map (fun x => x.AppID)).Nodup → ∀ r ∈ inv, c r.AppID = none →
      mergeInventory c inv r.AppID = some r) ∧
    (∀ id, mergeInventoryChanged c inv id = mergeInventory c inv id) := by
  refine ⟨fun id e h => mergeInventory_frame inv c id e h, fun id hid => ⟨?_, ?_⟩,
    fun hnd r hr hc => mergeInventory_insert inv c r hnd hr hc,
    fun id => by rw [mergeInventoryChanged_eq]⟩
  · intro hnone r hr hrid
    have := mergeInventory_isSome_of_mem inv c r hr
    rw [hrid, hnone] at this
    simp at this
  · intro h
    rw [mergeInventory_untouched inv c id h]
    exact hid

/-- Witness for `mergeInventory_spec`: a concrete catalog with one entry and
an inventory updating it and inserting a new id. -/
theorem mergeInventory_spec_witness :
    (∃ nm ib,
      mergeInventory
        (updateCat emptyCatalog 1
          { Name := "old", AppID := 1, LatestBuild := some 9, LatestDate := some "D" })
        [{ Name := "new", AppID := 1, InstalledBuild := some 4 },
         { Name := "fresh", AppID := 2, InstalledBuild := some 6 }] 1
      = some { Name := nm, AppID := 1, InstalledBuild := ib,
               LatestBuild := some 9, LatestDate := some "D" }) ∧
    mergeInventory
        (updateCat emptyCatalog 1
          { Name := "old", AppID := 1, LatestBuild := some 9, LatestDate := some "D" })
        [{ Name := "new", AppID := 1, InstalledBuild := some 4 },
         { Name := "fresh", AppID := 2, InstalledBuild := some 6 }] 2
      = some { Name := "fresh", AppID := 2, InstalledBuild := some 6 } := by
  constructor
  · exact (mergeInventory_spec _ _).1 1
      { Name := "old", AppID := 1, LatestBuild := some 9, LatestDate := some "D" } rfl
  · exact (mergeInventory_spec
      (updateCat emptyCatalog 1
        { Name := "old", AppID := 1, LatestBuild := some 9, LatestDate := some "D" })
      [{ Name := "new", AppID := 1, InstalledBuild := some 4 },
       { Name := "fresh", AppID := 2, InstalledBuild := some 6 }]).2.2.1
      (by decide)
      { Name := "fresh", AppID := 2, InstalledBuild := some 6 }
      (by simp)
      rfl

/-! ## Claims C4 and C10: the bounded worker pool -/

/-- Writing results at claimed indices preserves the array length. -/
lemma foldl_set_length (g : Nat → Option β) :
    ∀ (order : List Nat) (init : List (Option β)),
      (order.foldl (fun res i => res.set i (g i)) init).length = init.length
  | [], _ => rfl
  | a :: order, init => by
    show (order.foldl (fun res i => res.set i (g i)) (init.set a (g a))).length = _
    rw [foldl_set_length g order (init.set a (g a)), List.length_set]

/-- A position claimed by no write keeps its initial content. -/
lemma foldl_set_not_mem (g : Nat → Option β) :
    ∀ (order : List Nat) (init : List (Option β)) (j : Nat), j ∉ order →
      (order.foldl (fun res i => res.set i (g i)) init)[j]? = init[j]?
  | [], _, _, _ => rfl
  | a :: order, init, j, h => by
    have hja : a ≠ j := fun hh => h (hh ▸ List.mem_cons_self a order)
    show (order.foldl (fun res i => res.set i (g i)) (init.set a (g a)))[j]? = _
    rw [foldl_set_not_mem g order (init.set a (g a)) j
        (fun hm => h (List.mem_cons_of_mem a hm)),
      List.getElem?_set_ne hja]

/-- A position claimed by at least one write holds the written value at the
end: every write to a position carries the same value, so any completion
order produces it. -/
lemma foldl_set_mem (g : Nat → Option β) :
    ∀ (order : List Nat) (init : List (Option β)) (j : Nat), j ∈ order →
      j < init.length →
      (order.foldl (fun res i => res.set i (g i)) init)[j]? = some (g j)
  | a :: order, init, j, hmem, hlen => by
    show (order.foldl (fun res i => res.set i (g i)) (init.set a (g a)))[j]? = _
    by_cases hj : j ∈ order
    · exact foldl_set_mem g order (init.set a (g a)) j hj (by rw [List.length_set]; exact hlen)
    · have hja : j = a := by
        rcases List.mem_cons.mp hmem with h | h
        · exact h
        · exact absurd h hj
      subst hja
      rw [foldl_set_not_mem g order (init.set j (g j)) j hj]
      exact List.getElem?_set_self hlen

/-- Any execution of the worker pool - any completion order that writes each
index once - produces exactly the in-order image of the input list. -/
lemma mapWithConcurrencyWrites_eq (items : List α) (f : α → β) (order : List Nat)
    (h : order.Perm (List.range items.length)) :
    mapWithConcurrencyWrites items f order = (items.map f).map some := by
  apply List.ext_getElem?
  intro j
  by_cases hj : j < items.length
  · have hmem : j ∈ order := h.mem_iff.mpr (List.mem_range.mpr hj)
    unfold mapWithConcurrencyWrites
    rw [foldl_set_mem (fun i => items[i]?.map f) order _ j hmem
        (by rw [List.length_replicate]; exact hj)]
    simp [List.getElem?_eq_getElem, hj]
  · have h1 : items.length ≤ j := Nat.le_of_not_lt hj
    unfold mapWithConcurrencyWrites
    rw [List.getElem?_eq_none (l := (items.map f).map some)
        (by simpa using h1)]
    rw [List.getElem?_eq_none]
    rw [foldl_set_length]
    simpa using h1

/-- C4: the resolver pool is length- and order-preserving - for every input
list, resolver and completion order, output index `i` holds the resolver's
result for input index `i`, the output length equals the input length, and
the empty input yields the empty output at once. -/
theorem mapWithConcurrency_order_preserving (items : List α) (f : α → β)
    (order : List Nat) (h : order.Perm (List.range items.length)) :
    mapWithConcurrencyWrites items f order = (items.map f).map some ∧
    (mapWithConcurrencyWrites items f order).length = items.length ∧
    (items = [] → mapWithConcurrencyWrites items f order = []) := by
  refine ⟨mapWithConcurrencyWrites_eq items f order h, ?_, ?_⟩
  · rw [mapWithConcurrencyWrites_eq items f order h]
    simp
  · intro hnil
    subst hnil
    rw [mapWithConcurrencyWrites_eq [] f order h]
    rfl

/-- Witness for `mapWithConcurrency_order_preserving`: two items completed in
reverse order still land at their own indices. -/
theorem mapWithConcurrency_order_preserving_witness :
    mapWithConcurrencyWrites [3, 5] (fun x => x + 1) [1, 0]
      = ([3, 5].map (fun x => x + 1)).map some :=
  (mapWithConcurrency_order_preserving [3, 5] (fun x => x + 1) [1, 0] (by decide)).1

/-- C10: the pool spawns exactly `min(max(1, floor(limit)), items.length)`
workers, hence at least one worker on a nonempty input and never more workers
than items; and every completed execution leaves no hole in the result
array. -/
theorem numWorkers_bounds (limit : ℚ) (n : Nat) :
    ((numWorkers limit n : ℤ) = min (max 1 ⌊limit⌋) (n : ℤ)) ∧
    (n ≠ 0 → 1 ≤ numWorkers limit n) ∧
    numWorkers limit n ≤ n ∧
    (∀ (items : List α) (f : α → β) (order : List Nat),
      order.Perm (List.range items.length) →
      ∀ x ∈ mapWithConcurrencyWrites items f order, x.isSome = true) := by
  refine ⟨?_, ?_, ?_, ?_⟩
  · unfold numWorkers
    generalize ⌊limit⌋ = k
    omega
  · intro hn
    unfold numWorkers
    generalize ⌊limit⌋ = k
    omega
  · exact Nat.min_le_right _ _
  · intro items f order h x hx
    rw [mapWithConcurrencyWrites_eq items f order h] at hx
    obtain ⟨y, _, hy⟩ := List.mem_map.mp hx
    rw [← hy]
    rfl

/-- Witness for `numWorkers_bounds` at a fractional limit and a concrete
pool run. -/
theorem numWorkers_bounds_witness :
    1 ≤ numWorkers (5 / 2 : ℚ) 3 ∧
    (∀ x ∈ mapWithConcurrencyWrites [7] (fun y => y) [0], x.isSome = true) :=
  ⟨(numWorkers_bounds (α := Nat) (β := Nat) (5 / 2 : ℚ) 3).2.1 (by decide),
   (numWorkers_bounds (α := Nat) (β := Nat) (5 / 2 : ℚ) 3).2.2.2 [7] (fun y => y) [0]
     (by decide)⟩

/-! ## Claim C7: sticky external reference -/

/-- Every link collected by the feed filter carries the SkidrowReloaded URL
stem as a prefix. -/
lemma getSkidrowLinks_prefix_aux (gameName : String) (sinceDate : Int) :
    ∀ (items : List FeedItem) (acc : List String),
      (∀ l ∈ acc, skidrowUrlStem.data.isPrefixOf l.data = true) →
      ∀ l ∈ items.foldl
        (fun links item =>
          match item.categories, item.pubDate, item.guid with
          | some cats, some pd, some g =>
            links ++ (cats.filter
              (fun cat =>
                normalizeTitle cat == normalizeTitle gameName
                  && decide (sinceDate ≤ pd)
                  && skidrowUrlStem.data.isPrefixOf g.data)).map (fun _ => g)
          | _, _, _ => links)
        acc,
      skidrowUrlStem.data.isPrefixOf l.data = true
  | [], acc, hacc, l, hl => hacc l hl
  | item :: items, acc, hacc, l, hl => by
    refine getSkidrowLinks_prefix_aux gameName sinceDate items _ ?_ l hl
    intro x hx
    rcases hitem : item.categories with _ | cats <;>
      rcases hpd : item.pubDate with _ | pd <;>
      rcases hg : item.guid with _ | g <;>
      simp only [hitem, hpd, hg] at hx <;>
      try exact hacc x hx
    rcases List.mem_append.mp hx with hx | hx
    · exact hacc x hx
    · obtain ⟨cat, hcat, hxg⟩ := List.mem_map.mp hx
      have hcond := List.of_mem_filter hcat
      subst hxg
      exact (Bool.and_eq_true _ _ |>.mp hcond).2

/-- Specialisation of `getSkidrowLinks_prefix_aux` to the function itself. -/
lemma getSkidrowLinks_prefix (gameName : String) (sinceDate : Int)
    (items : List FeedItem) (l : String) (hl : l ∈ getSkidrowLinks gameName sinceDate items) :
    skidrowUrlStem.data.isPrefixOf l.data = true :=
  getSkidrowLinks_prefix_aux gameName sinceDate items [] (by intro x hx; cases hx) l hl

/-- C7: an absent (empty-list) or failed link lookup leaves the stored
external reference unchanged; a resolution carrying links overwrites it with
the first link, which - being produced by the feed filter - is nonempty and
carries the SkidrowReloaded URL stem. -/
theorem applySkidrow_sticky (e : GameEntry) :
    ((applySkidrow e (LinksOutcome.ok [])).1.SkidrowLink = e.SkidrowLink) ∧
    ((applySkidrow e LinksOutcome.err).1.SkidrowLink = e.SkidrowLink) ∧
    (∀ gameName sinceDate items l rest,
      getSkidrowLinks gameName sinceDate items = l :: rest →
        (applySkidrow e (LinksOutcome.ok (l :: rest))).1.SkidrowLink = some l ∧
        skidrowUrlStem.data.isPrefixOf l.data = true ∧
        0 < l.length) := by
  refine ⟨rfl, rfl, ?_⟩
  intro gameName sinceDate items l rest hlinks
  have hmem : l ∈ getSkidrowLinks gameName sinceDate items := by
    rw [hlinks]; exact List.mem_cons_self l rest
  have hpre := getSkidrowLinks_prefix gameName sinceDate items l hmem
  refine ⟨rfl, hpre, ?_⟩
  have hp : skidrowUrlStem.data <+: l.data := List.isPrefixOf_iff_prefix.mp hpre
  have hlen : skidrowUrlStem.data.length ≤ l.data.length := hp.length_le
  have hstem : 0 < skidrowUrlStem.data.length := by decide
  show 0 < l.length
  rw [String.length]
  omega

/-- Witness for `applySkidrow_sticky`: a one-item feed whose guid matches
produces that guid, which then overwrites the stored link. -/
theorem applySkidrow_sticky_witness :
    (applySkidrow
        { Name := "g", AppID := 1, SkidrowLink := some "old" }
        (LinksOutcome.ok (getSkidrowLinks "A.B" 0
          [{ categories := some ["a b"], pubDate := some 5,
             guid := some "https://www.skidrowreloaded.com/ab" }]))).1.SkidrowLink
      = some "https://www.skidrowreloaded.com/ab" :=
  ((applySkidrow_sticky { Name := "g", AppID := 1, SkidrowLink := some "old" }).2.2
    "A.B" 0
    [{ categories := some ["a b"], pubDate := some 5,
       guid := some "https://www.skidrowreloaded.com/ab" }]
    "https://www.skidrowreloaded.com/ab" [] (by decide)).1

/-! ## Claim C9: report ordering -/

/-- The comparator order is total. -/
lemma nameLe_total (a b : GameEntry) : nameLe a b ∨ nameLe b a :=
  le_total (nameKey a) (nameKey b)

/-- The comparator order is transitive. -/
lemma nameLe_trans {a b c : GameEntry} (h1 : nameLe a b) (h2 : nameLe b c) : nameLe a c :=
  le_trans h1 h2

/-- Totality in contrapositive form. -/
lemma nameLe_of_not {a b : GameEntry} (h : ¬ nameLe b a) : nameLe a b :=
  (nameLe_total a b).resolve_right h

/-- Rows with the same display name compare as equal. -/
lemma nameLe_of_name_eq {a b : GameEntry} (h : a.Name = b.Name) : nameLe a b := by
  unfold nameLe nameKey
  rw [h]

/-- `nameLe` entails the case-insensitive primary comparison. -/
lemma nameLe_primary {a b : GameEntry} (h : nameLe a b) :
    lowerAscii a.Name ≤ lowerAscii b.Name := by
  rcases (Prod.Lex.le_iff _ _).mp h with h | ⟨h, _⟩
  · exact le_of_lt h
  · exact le_of_eq h

/-- Stable insertion permutes the element in. -/
lemma sinsert_perm (a : GameEntry) : ∀ l : List GameEntry, (sinsert a l).Perm (a :: l)
  | [] => List.Perm.refl _
  | b :: l => by
    unfold sinsert
    by_cases h : nameLe b a
    · rw [if_pos h]
      exact ((sinsert_perm a l).cons b).trans (List.Perm.swap a b l)
    · rw [if_neg h]

/-- Stable insertion into a sorted list stays sorted. -/
lemma sinsert_pairwise (a : GameEntry) :
    ∀ l : List GameEntry, l.Pairwise nameLe → (sinsert a l).Pairwise nameLe
  | [], _ => List.pairwise_singleton _ _
  | b :: l, h => by
    rcases List.pairwise_cons.mp h with ⟨hb, hl⟩
    unfold sinsert
    by_cases hba : nameLe b a
    · rw [if_pos hba]
      refine List.pairwise_cons.mpr ⟨?_, sinsert_pairwise a l hl⟩
      intro x hx
      rcases List.mem_cons.mp ((sinsert_perm a l).mem_iff.mp hx) with rfl | hx
      · exact hba
      · exact hb x hx
    · rw [if_neg hba]
      refine List.pairwise_cons.mpr ⟨?_, h⟩
      intro x hx
      rcases List.mem_cons.mp hx with rfl | hx
      · exact nameLe_of_not hba
      · exact nameLe_trans (nameLe_of_not hba) (hb x hx)

/-- Inserting a row the predicate rejects does not change the filtered rows. -/
lemma filter_sinsert_of_neg (p : GameEntry → Bool) (a : GameEntry) (hp : p a = false) :
    ∀ l : List GameEntry, (sinsert a l).filter p = l.filter p
  | [] => by simp [sinsert, hp]
  | b :: l => by
    unfold sinsert
    by_cases h : nameLe b a
    · rw [if_pos h]
      cases hpb : p b <;>
        simp [List.filter_cons, hpb, filter_sinsert_of_neg p a hp l]
    · rw [if_neg h]
      simp [List.filter_cons, hp]

/-- Inserting a row the predicate accepts appends it after all previously
accepted rows, provided every accepted row compares no greater than it and
the list is sorted. -/
lemma filter_sinsert_of_pos (p : GameEntry → Bool) (a : GameEntry) (hp : p a = true)
    (hall : ∀ x, p x = true → nameLe x a) :
    ∀ l : List GameEntry, l.Pairwise nameLe → (sinsert a l).filter p = l.filter p ++ [a]
  | [], _ => by simp [sinsert, hp]
  | b :: l, hpair => by
    rcases List.pairwise_cons.mp hpair with ⟨hb, hl⟩
    unfold sinsert
    by_cases h : nameLe b a
    · rw [if_pos h]
      cases hpb : p b <;>
        simp [List.filter_cons, hpb, filter_sinsert_of_pos p a hp hall l hl]
    · rw [if_neg h]
      have hpb : p b = false := by
        cases hpb : p b
        · rfl
        · exact absurd (hall b hpb) h
      have hnl : l.filter p = [] := by
        refine List.filter_eq_nil_iff.mpr ?_
        intro x hx hpx
        exact h (nameLe_trans (hb x hx) (hall x hpx))
      simp [List.filter_cons, hp, hpb, hnl]

/-- The insertion fold keeps the accumulator sorted. -/
lemma sortAccum_pairwise :
    ∀ (l acc : List GameEntry), acc.Pairwise nameLe →
      (l.foldl (fun acc x => sinsert x acc) acc).Pairwise nameLe
  | [], _, h => h
  | x :: l, acc, h => sortAccum_pairwise l (sinsert x acc) (sinsert_pairwise x acc h)

/-- The insertion fold permutes accumulator and input together. -/
lemma sortAccum_perm :
    ∀ (l acc : List GameEntry),
      (l.foldl (fun acc x => sinsert x acc) acc).Perm (acc ++ l)
  | [], acc => by simp
  | x :: l, acc => by
    refine (sortAccum_perm l (sinsert x acc)).trans ?_
    refine (((sinsert_perm x acc).append_right l).trans ?_)
    exact List.perm_middle.symm

/-- The insertion fold preserves the relative order of rows with any fixed
display name: they end up as the accumulator's such rows followed by the
input's such rows, in input order. -/
lemma sortAccum_filter (nm : String) :
    ∀ (l acc : List GameEntry), acc.Pairwise nameLe →
      (l.foldl (fun acc x => sinsert x acc) acc).filter (fun r => r.Name == nm)
        = acc.filter (fun r => r.Name == nm) ++ l.filter (fun r => r.Name == nm)
  | [], acc, _ => by simp
  | x :: l, acc, h => by
    have ih := sortAccum_filter nm l (sinsert x acc) (sinsert_pairwise x acc h)
    show (l.foldl (fun acc x => sinsert x acc) (sinsert x acc)).filter _ = _
    rw [ih]
    by_cases hx : x.Name = nm
    · have hp : (fun r : GameEntry => r.Name == nm) x = true := by simp [hx]
      have hall : ∀ y, (fun r : GameEntry => r.Name == nm) y = true → nameLe y x := by
        intro y hy
        refine nameLe_of_name_eq ?_
        have hy' : y.Name = nm := by simpa using hy
        rw [hy', hx]
      rw [filter_sinsert_of_pos _ x hp hall acc h]
      simp [List.filter_cons, hp]
    · have hp : (fun r : GameEntry => r.Name == nm) x = false := by simp [hx]
      rw [filter_sinsert_of_neg _ x hp acc]
      simp [List.filter_cons, hp]

/-- C9: the report sort is a permutation of the rows, sorted under the
embedded collation (in particular nondecreasingly under the case-insensitive
primary comparison of display names), and stable: rows with any fixed display
name keep their input order. -/
theorem generateHtmlReport_sort_spec (l : List GameEntry) :
    (sortByName l).Perm l ∧
    (sortByName l).Pairwise nameLe ∧
    (sortByName l).Pairwise (fun a b => lowerAscii a.Name ≤ lowerAscii b.Name) ∧
    (∀ nm, (sortByName l).filter (fun r => r.Name == nm)
      = l.filter (fun r => r.Name == nm)) := by
  have hpair : (sortByName l).Pairwise nameLe :=
    sortAccum_pairwise l [] List.Pairwise.nil
  refine ⟨?_, hpair, ?_, ?_⟩
  · simpa using sortAccum_perm l []
  · exact hpair.imp fun h => nameLe_primary h
  · intro nm
    simpa using sortAccum_filter nm l [] List.Pairwise.nil

end SteamBackup
